import Mathlib

/-!
Verification of the ICP name-service canister (`src/index.ts`, first variant,
lines 1-413, which the claims reference).

Shallow embedding conventions:
* `Principal` values are compared in the source via `.toText()`; we model a
  principal as its textual form, a `String`.
* `nat64` timestamps and durations are modelled as `Nat` (azle `nat64` is a
  bigint; no arithmetic in the modelled paths can wrap).
* The three `StableBTreeMap`s are modelled as association lists
  `List (String × v)` with get/insert/remove/containsKey operations.
* `ic.caller()` and `ic.time()` are passed as explicit `caller`/`now`
  parameters to each operation.
* Each update method returns the azle `Result` as `Except Error String`
  together with the post-call persistent state.
-/

namespace NameService

/-- The `Domain` record type (`src/index.ts` lines 15-20). -/
structure Domain where
  id : String
  owner : String
  validUntil : Nat
  updatedAt : Nat
deriving Repr, DecidableEq

/-- The `History` record type (`src/index.ts` lines 23-27). -/
structure History where
  owner : String
  validUntil : Nat
  createdAt : Nat
deriving Repr, DecidableEq

/-- The `Error` variant (`src/index.ts` lines 31-44).  `UnknownError` is kept
for completeness; the modelled code never produces it (the TypeScript
`try/catch` only fires on runtime exceptions of the host). -/
inductive Error where
  | CallerNotCanisterOwner (p : String)
  | CallerNotDomainOwner (p : String)
  | DomainNotFound (k : String)
  | InvalidDomainKey (k : String)
  | DomainStillValid (p : String)
  | DomainAlreadyClaimed (p : String)
  | DomainOwnershipExpired (p : String)
  | InvalidDuration (d : Nat)
  | InvalidDomainNameLength (n : Nat)
  | InvalidDomainExtension (e : String)
  | DomainReserved (p : String)
  | UnknownError (msg : String)
deriving Repr, DecidableEq

/-- Extensions supported by the service (`SUPPORTED_EXTENSIONS`, line 47). -/
def SUPPORTED_EXTENSIONS : List String := ["icp", "ic", "moon"]

/-- Minimum length of the domain name (line 49). -/
def MIN_DOMAIN_NAME_LENGTH : Nat := 3

/-- Maximum length of the domain name (line 51). -/
def MAX_DOMAIN_NAME_LENGTH : Nat := 40

/-- 1 second in nanoseconds (line 53). -/
def MIN_DURATION : Nat := 1000000

/-- 1 year in nanoseconds (line 55). -/
def MAX_DURATION : Nat := 31536000000000000

/-- `map.get(k)` on a `StableBTreeMap`, modelled on an association list. -/
def mapGet {α : Type} : List (String × α) → String → Option α
  | [], _ => none
  | (k', v) :: rest, k => if k' = k then some v else mapGet rest k

/-- `map.containsKey(k)` on a `StableBTreeMap`. -/
def mapContainsKey {α : Type} (m : List (String × α)) (k : String) : Bool :=
  (mapGet m k).isSome

/-- `map.insert(k, v)` on a `StableBTreeMap`: replace the binding if present,
append otherwise. -/
def mapInsert {α : Type} : List (String × α) → String → α → List (String × α)
  | [], k, v => [(k, v)]
  | (k', v') :: rest, k, v =>
    if k' = k then (k, v) :: rest else (k', v') :: mapInsert rest k v

/-- `map.remove(k)` on a `StableBTreeMap`. -/
def mapRemove {α : Type} : List (String × α) → String → List (String × α)
  | [], _ => []
  | (k', v') :: rest, k =>
    if k' = k then mapRemove rest k else (k', v') :: mapRemove rest k

/-- The canister's persistent state: the owner principal set at `init`
(line 58) and the three stable maps (lines 60-62). -/
structure CanisterState where
  owner : String
  domainsStorage : List (String × Domain)
  domainHistoryStorage : List (String × List History)
  reservedDomainsStorage : List (String × String)
deriving Repr, DecidableEq

/-- `isDomainNameValid` (lines 353-355): the name length must lie in
`[MIN_DOMAIN_NAME_LENGTH, MAX_DOMAIN_NAME_LENGTH]`.  JavaScript
`string.length` counts UTF-16 code units; `String.length` counts code
points — they agree on the inputs considered here. -/
def isDomainNameValid (name : String) : Bool :=
  decide (MIN_DOMAIN_NAME_LENGTH ≤ name.length) &&
    decide (name.length ≤ MAX_DOMAIN_NAME_LENGTH)

/-- `isDomainExtensionValid` (lines 362-364): membership in
`SUPPORTED_EXTENSIONS`. -/
def isDomainExtensionValid (extension : String) : Bool :=
  SUPPORTED_EXTENSIONS.contains extension

/-- `getDomainKey` (lines 372-374): the canonical key
`name + "." + extension`. -/
def getDomainKey (name extension : String) : String :=
  name ++ "." ++ extension

/-- JavaScript `str.split(".")` over the character list of `str`: cut the
list at every occurrence of `'.'`.  The accumulator holds the characters of
the current segment in reverse. -/
def splitCharList : List Char → List Char → List String
  | [], acc => [String.mk acc.reverse]
  | c :: rest, acc =>
    if c = '.' then String.mk acc.reverse :: splitCharList rest []
    else splitCharList rest (c :: acc)

/-- `domainKey.split(".")` as in line 382. -/
def splitKey (domainKey : String) : List String :=
  splitCharList domainKey.data []

/-- `isDomainKeyValid` (lines 381-384): destructure the split into
`[name, extension]` (JavaScript leaves `extension` undefined when the split
has a single part, and `includes(undefined)` is `false`) and re-validate
both parts. -/
def isDomainKeyValid (domainKey : String) : Bool :=
  match splitKey domainKey with
  | name :: extension :: _ => isDomainNameValid name && isDomainExtensionValid extension
  | _ => false

/-- The two parts the destructuring in line 382 extracts from a key that
splits into at least two segments (vocabulary for claim C9). -/
def splitDomainKey (domainKey : String) : String × String :=
  match splitKey domainKey with
  | name :: extension :: _ => (name, extension)
  | name :: _ => (name, "")
  | _ => ("", "")

/-- `updateHistoryRecord` (lines 392-413): append a history record for
`domainKey` to the per-key sequence, creating the sequence when absent. -/
def updateHistoryRecord (hist : List (String × List History))
    (domainKey owner : String) (validUntil now : Nat) :
    List (String × List History) :=
  let historyRecord : History := { owner := owner, validUntil := validUntil, createdAt := now }
  let newHistory : List History :=
    match mapGet hist domainKey with
    | some oldHistory => oldHistory ++ [historyRecord]
    | none => [historyRecord]
  mapInsert hist domainKey newHistory

/-- `reserve` (lines 87-115). -/
def reserve (st : CanisterState) (caller name extension wallet : String) :
    Except Error String × CanisterState :=
  if st.owner ≠ caller then
    (Except.error (Error.CallerNotCanisterOwner caller), st)
  else if ¬ isDomainNameValid name then
    (Except.error (Error.InvalidDomainNameLength name.length), st)
  else if ¬ isDomainExtensionValid extension then
    (Except.error (Error.InvalidDomainExtension extension), st)
  else
    match mapGet st.domainsStorage (getDomainKey name extension) with
    | some domain => (Except.error (Error.DomainAlreadyClaimed domain.owner), st)
    | none =>
      (Except.ok (getDomainKey name extension),
       { st with
         reservedDomainsStorage :=
           mapInsert st.reservedDomainsStorage (getDomainKey name extension) wallet })

/-- Tail of `claim` (lines 163-175): build the new domain, append the history
record, and store the domain. -/
def claimCommit (st : CanisterState) (caller : String) (now : Nat)
    (domainKey : String) (duration : Nat) : Except Error String × CanisterState :=
  (Except.ok domainKey,
   { st with
     domainHistoryStorage :=
       updateHistoryRecord st.domainHistoryStorage domainKey caller (now + duration) now,
     domainsStorage :=
       mapInsert st.domainsStorage domainKey
         { id := domainKey, owner := caller, validUntil := now + duration, updatedAt := now } })

/-- Reservation check of `claim` (lines 152-161) followed by the commit: a
reservation held by another principal blocks the claim, a reservation held
by the caller is consumed. -/
def claimReserveCheck (st : CanisterState) (caller : String) (now : Nat)
    (domainKey : String) (duration : Nat) : Except Error String × CanisterState :=
  match mapGet st.reservedDomainsStorage domainKey with
  | some reservedFor =>
    if reservedFor ≠ caller then
      (Except.error (Error.DomainReserved reservedFor), st)
    else
      claimCommit
        { st with reservedDomainsStorage := mapRemove st.reservedDomainsStorage domainKey }
        caller now domainKey duration
  | none => claimCommit st caller now domainKey duration

/-- `claim` (lines 123-179). -/
def claim (st : CanisterState) (caller : String) (now : Nat)
    (name extension : String) (duration : Nat) : Except Error String × CanisterState :=
  if duration < MIN_DURATION ∨ duration > MAX_DURATION then
    (Except.error (Error.InvalidDuration duration), st)
  else if ¬ isDomainNameValid name then
    (Except.error (Error.InvalidDomainNameLength name.length), st)
  else if ¬ isDomainExtensionValid extension then
    (Except.error (Error.InvalidDomainExtension extension), st)
  else
    match mapGet st.domainsStorage (getDomainKey name extension) with
    | some domain =>
      if domain.validUntil ≥ now then
        (Except.error (Error.DomainAlreadyClaimed domain.owner), st)
      else
        claimReserveCheck st caller now (getDomainKey name extension) duration
    | none => claimReserveCheck st caller now (getDomainKey name extension) duration

/-- `revoke` (lines 205-236). -/
def revoke (st : CanisterState) (caller : String) (now : Nat) (domainKey : String) :
    Except Error String × CanisterState :=
  if ¬ isDomainKeyValid domainKey then
    (Except.error (Error.InvalidDomainKey domainKey), st)
  else
    match mapGet st.domainsStorage domainKey with
    | some domain =>
      if domain.owner ≠ caller ∧ domain.validUntil > now then
        (Except.error (Error.DomainStillValid domain.owner), st)
      else
        (Except.ok domainKey,
         { st with
           domainHistoryStorage :=
             updateHistoryRecord st.domainHistoryStorage domainKey caller 0 now,
           domainsStorage :=
             mapInsert st.domainsStorage domainKey
               { id := domainKey, owner := domain.owner, validUntil := 0, updatedAt := now } })
    | none => (Except.error (Error.DomainNotFound domainKey), st)

/-- `transfer` (lines 245-277). -/
def transfer (st : CanisterState) (caller : String) (now : Nat)
    (domainKey newOwner : String) : Except Error String × CanisterState :=
  if ¬ isDomainKeyValid domainKey then
    (Except.error (Error.InvalidDomainKey domainKey), st)
  else
    match mapGet st.domainsStorage domainKey with
    | some domain =>
      if domain.owner ≠ caller then
        (Except.error (Error.CallerNotDomainOwner caller), st)
      else if domain.validUntil < now then
        (Except.error (Error.DomainOwnershipExpired domain.owner), st)
      else
        (Except.ok domainKey,
         { st with
           domainHistoryStorage :=
             updateHistoryRecord st.domainHistoryStorage domainKey newOwner domain.validUntil now,
           domainsStorage :=
             mapInsert st.domainsStorage domainKey
               { id := domainKey, owner := newOwner, validUntil := domain.validUntil,
                 updatedAt := now } })
    | none => (Except.error (Error.DomainNotFound domainKey), st)

/-- The history sequence currently stored for a key (empty when absent). -/
def histOf (st : CanisterState) (domainKey : String) : List History :=
  (mapGet st.domainHistoryStorage domainKey).getD []

theorem mapGet_insert_self {α : Type} (m : List (String × α)) (k : String) (v : α) :
    mapGet (mapInsert m k v) k = some v := by
  induction m with
  | nil => simp [mapInsert, mapGet]
  | cons p rest ih =>
    obtain ⟨k', v'⟩ := p
    by_cases h : k' = k <;> simp [mapInsert, mapGet, h, ih]

theorem mapGet_remove_self {α : Type} (m : List (String × α)) (k : String) :
    mapGet (mapRemove m k) k = none := by
  induction m with
  | nil => simp [mapRemove, mapGet]
  | cons p rest ih =>
    obtain ⟨k', v'⟩ := p
    by_cases h : k' = k <;> simp [mapRemove, mapGet, h, ih]

theorem updateHistoryRecord_get (hist : List (String × List History))
    (domainKey owner : String) (validUntil now : Nat) :
    mapGet (updateHistoryRecord hist domainKey owner validUntil now) domainKey =
      some ((mapGet hist domainKey).getD [] ++
        [{ owner := owner, validUntil := validUntil, createdAt := now }]) := by
  unfold updateHistoryRecord
  cases h : mapGet hist domainKey <;> simp [h, mapGet_insert_self]

theorem splitCharList_of_not_mem (cs acc : List Char) (h : '.' ∉ cs) :
    splitCharList cs acc = [String.mk (acc.reverse ++ cs)] := by
  induction cs generalizing acc with
  | nil => simp [splitCharList]
  | cons c rest ih =>
    have hc : c ≠ '.' := fun hc => h (hc ▸ List.mem_cons_self c rest)
    have hrest : '.' ∉ rest := fun hr => h (List.mem_cons_of_mem c hr)
    simp [splitCharList, hc, ih _ hrest]

theorem splitCharList_append_dot (pre post acc : List Char) (hpre : '.' ∉ pre) :
    splitCharList (pre ++ '.' :: post) acc =
      String.mk (acc.reverse ++ pre) :: splitCharList post [] := by
  induction pre generalizing acc with
  | nil => simp [splitCharList]
  | cons c rest ih =>
    have hc : c ≠ '.' := fun hc => hpre (hc ▸ List.mem_cons_self c rest)
    have hrest : '.' ∉ rest := fun hr => hpre (List.mem_cons_of_mem c hr)
    simp [splitCharList, hc, ih _ hrest]

theorem splitKey_getDomainKey (name extension : String)
    (hn : '.' ∉ name.data) (he : '.' ∉ extension.data) :
    splitKey (getDomainKey name extension) = [name, extension] := by
  have hdata : (getDomainKey name extension).data = name.data ++ '.' :: extension.data := by
    simp [getDomainKey]
  rw [splitKey, hdata, splitCharList_append_dot _ _ _ hn,
    splitCharList_of_not_mem _ _ he]
  rcases name with ⟨nd⟩
  rcases extension with ⟨ed⟩
  simp

theorem extension_no_dot (extension : String)
    (hext : isDomainExtensionValid extension = true) : '.' ∉ extension.data := by
  have : extension = "icp" ∨ extension = "ic" ∨ extension = "moon" := by
    simpa [isDomainExtensionValid, SUPPORTED_EXTENSIONS] using hext
  rcases this with h | h | h <;> subst h <;> decide

/-- Claim C1: for every caller, validated name and extension, duration in
`[MIN_DURATION, MAX_DURATION]`, and state in which no domain record for the
canonical key has `validUntil ≥ now` and no reservation for the key names an
identity other than the caller, `claim` succeeds returning the canonical
key, stores the record with `owner = caller`, `validUntil = now + duration`,
`updatedAt = now` under that key, and removes any reservation for the key. -/
theorem claim_success (st : CanisterState) (caller : String) (now : Nat)
    (name extension : String) (duration : Nat)
    (hmin : MIN_DURATION ≤ duration) (hmax : duration ≤ MAX_DURATION)
    (hname : isDomainNameValid name = true)
    (hext : isDomainExtensionValid extension = true)
    (hdom : ∀ d, mapGet st.domainsStorage (getDomainKey name extension) = some d →
      d.validUntil < now)
    (hres : ∀ p, mapGet st.reservedDomainsStorage (getDomainKey name extension) = some p →
      p = caller) :
    (claim st caller now name extension duration).1 =
        Except.ok (getDomainKey name extension) ∧
      mapGet (claim st caller now name extension duration).2.domainsStorage
          (getDomainKey name extension) =
        some { id := getDomainKey name extension, owner := caller,
               validUntil := now + duration, updatedAt := now } ∧
      mapGet (claim st caller now name extension duration).2.reservedDomainsStorage
          (getDomainKey name extension) = none := by
  have hnd : ¬ (duration < MIN_DURATION ∨ duration > MAX_DURATION) := by omega
  rcases hd : mapGet st.domainsStorage (getDomainKey name extension) with _ | d
  · rcases hr : mapGet st.reservedDomainsStorage (getDomainKey name extension) with _ | p
    · simp [claim, hnd, hname, hext, hd, hr, claimReserveCheck, claimCommit,
        mapGet_insert_self]
    · have hp : p = caller := hres p hr
      simp [claim, hnd, hname, hext, hd, hr, hp, claimReserveCheck, claimCommit,
        mapGet_insert_self, mapGet_remove_self]
  · have hdv : ¬ (d.validUntil ≥ now) := by
      have := hdom d hd
      omega
    rcases hr : mapGet st.reservedDomainsStorage (getDomainKey name extension) with _ | p
    · simp [claim, hnd, hname, hext, hd, hdv, hr, claimReserveCheck, claimCommit,
        mapGet_insert_self]
    · have hp : p = caller := hres p hr
      simp [claim, hnd, hname, hext, hd, hdv, hr, hp, claimReserveCheck, claimCommit,
        mapGet_insert_self, mapGet_remove_self]

/-- Witness for C1: "alice" claims "abc.icp" at time 100 for the minimum
duration in a state where the key is reserved for "alice" herself. -/
theorem claim_success_witness :
    (claim ⟨"admin", [], [], [("abc.icp", "alice")]⟩ "alice" 100 "abc" "icp" 1000000).1 =
        Except.ok (getDomainKey "abc" "icp") ∧
      mapGet (claim ⟨"admin", [], [], [("abc.icp", "alice")]⟩
          "alice" 100 "abc" "icp" 1000000).2.domainsStorage (getDomainKey "abc" "icp") =
        some { id := getDomainKey "abc" "icp", owner := "alice",
               validUntil := 100 + 1000000, updatedAt := 100 } ∧
      mapGet (claim ⟨"admin", [], [], [("abc.icp", "alice")]⟩
          "alice" 100 "abc" "icp" 1000000).2.reservedDomainsStorage
          (getDomainKey "abc" "icp") = none :=
  claim_success ⟨"admin", [], [], [("abc.icp", "alice")]⟩ "alice" 100 "abc" "icp" 1000000
    (by decide) (by decide) (by decide) (by decide)
    (fun d h => Option.noConfusion h)
    (fun p h => (Option.some.inj h).symm)

/-- Claim C2: for every `claim` call that passes duration, name and extension
validation, the call returns `DomainAlreadyClaimed` carrying the existing
owner exactly when a domain record for the key exists with
`validUntil ≥ now` (non-strict boundary), and when no such active record
exists it returns `DomainReserved` carrying the reserved identity exactly
when a reservation for the key exists for an identity other than the
caller. -/
theorem claim_error_characterization (st : CanisterState) (caller : String) (now : Nat)
    (name extension : String) (duration : Nat)
    (hmin : MIN_DURATION ≤ duration) (hmax : duration ≤ MAX_DURATION)
    (hname : isDomainNameValid name = true)
    (hext : isDomainExtensionValid extension = true) :
    ((∃ p, (claim st caller now name extension duration).1 =
        Except.error (Error.DomainAlreadyClaimed p)) ↔
      (∃ d, mapGet st.domainsStorage (getDomainKey name extension) = some d ∧
        now ≤ d.validUntil)) ∧
    (∀ d, mapGet st.domainsStorage (getDomainKey name extension) = some d →
      now ≤ d.validUntil →
      (claim st caller now name extension duration).1 =
        Except.error (Error.DomainAlreadyClaimed d.owner)) ∧
    ((∀ d, mapGet st.domainsStorage (getDomainKey name extension) = some d →
        d.validUntil < now) →
      (((∃ p, (claim st caller now name extension duration).1 =
          Except.error (Error.DomainReserved p)) ↔
        (∃ p, mapGet st.reservedDomainsStorage (getDomainKey name extension) = some p ∧
          p ≠ caller)) ∧
       (∀ p, mapGet st.reservedDomainsStorage (getDomainKey name extension) = some p →
         p ≠ caller →
         (claim st caller now name extension duration).1 =
           Except.error (Error.DomainReserved p)))) := by
  have hnd : ¬ (duration < MIN_DURATION ∨ duration > MAX_DURATION) := by omega
  rcases hd : mapGet st.domainsStorage (getDomainKey name extension) with _ | d
  · rcases hr : mapGet st.reservedDomainsStorage (getDomainKey name extension) with _ | p
    · simp [claim, hnd, hname, hext, hd, hr, claimReserveCheck, claimCommit]
    · by_cases hp : p = caller
      · simp [claim, hnd, hname, hext, hd, hr, hp, claimReserveCheck, claimCommit]
      · simp [claim, hnd, hname, hext, hd, hr, hp, claimReserveCheck, claimCommit]
  · by_cases hdv : now ≤ d.validUntil
    · simp [claim, hnd, hname, hext, hd, hdv, claimReserveCheck, claimCommit]
    · have hdv' : ¬ (d.validUntil ≥ now) := by omega
      rcases hr : mapGet st.reservedDomainsStorage (getDomainKey name extension) with _ | p
      · simp [claim, hnd, hname, hext, hd, hdv', hr, claimReserveCheck, claimCommit]
        omega
      · by_cases hp : p = caller
        · simp [claim, hnd, hname, hext, hd, hdv', hr, hp, claimReserveCheck, claimCommit]
          omega
        · simp [claim, hnd, hname, hext, hd, hdv', hr, hp, claimReserveCheck, claimCommit]
          omega

/-- Witness for C2: "bob" tries to claim "abc.icp" at time 100 while
"alice" holds it until time 200. -/
theorem claim_error_characterization_witness :
    ((∃ p, (claim ⟨"admin", [("abc.icp", ⟨"abc.icp", "alice", 200, 0⟩)], [], []⟩
        "bob" 100 "abc" "icp" 1000000).1 =
        Except.error (Error.DomainAlreadyClaimed p)) ↔
      (∃ d, mapGet [("abc.icp", (⟨"abc.icp", "alice", 200, 0⟩ : Domain))]
          (getDomainKey "abc" "icp") = some d ∧ 100 ≤ d.validUntil)) ∧
    (∀ d, mapGet [("abc.icp", (⟨"abc.icp", "alice", 200, 0⟩ : Domain))]
        (getDomainKey "abc" "icp") = some d →
      100 ≤ d.validUntil →
      (claim ⟨"admin", [("abc.icp", ⟨"abc.icp", "alice", 200, 0⟩)], [], []⟩
        "bob" 100 "abc" "icp" 1000000).1 =
        Except.error (Error.DomainAlreadyClaimed d.owner)) ∧
    ((∀ d, mapGet [("abc.icp", (⟨"abc.icp", "alice", 200, 0⟩ : Domain))]
        (getDomainKey "abc" "icp") = some d →
        d.validUntil < 100) →
      (((∃ p, (claim ⟨"admin", [("abc.icp", ⟨"abc.icp", "alice", 200, 0⟩)], [], []⟩
          "bob" 100 "abc" "icp" 1000000).1 =
          Except.error (Error.DomainReserved p)) ↔
        (∃ p, mapGet ([] : List (String × String)) (getDomainKey "abc" "icp") = some p ∧
          p ≠ "bob")) ∧
       (∀ p, mapGet ([] : List (String × String)) (getDomainKey "abc" "icp") = some p →
         p ≠ "bob" →
         (claim ⟨"admin", [("abc.icp", ⟨"abc.icp", "alice", 200, 0⟩)], [], []⟩
           "bob" 100 "abc" "icp" 1000000).1 =
           Except.error (Error.DomainReserved p)))) :=
  claim_error_characterization ⟨"admin", [("abc.icp", ⟨"abc.icp", "alice", 200, 0⟩)], [], []⟩
    "bob" 100 "abc" "icp" 1000000 (by decide) (by decide) (by decide) (by decide)

/-- Claim C3: for every operation (reserve, claim, revoke, transfer), caller
and starting state, if the operation returns an error then the persisted
state (domain records, reservations and all history sequences) is exactly
as before the call. -/
theorem error_preserves_state :
    (∀ (st : CanisterState) (caller name extension wallet : String) (e : Error)
       (st' : CanisterState),
       reserve st caller name extension wallet = (Except.error e, st') → st' = st) ∧
    (∀ (st : CanisterState) (caller : String) (now : Nat) (name extension : String)
       (duration : Nat) (e : Error) (st' : CanisterState),
       claim st caller now name extension duration = (Except.error e, st') → st' = st) ∧
    (∀ (st : CanisterState) (caller : String) (now : Nat) (domainKey : String) (e : Error)
       (st' : CanisterState),
       revoke st caller now domainKey = (Except.error e, st') → st' = st) ∧
    (∀ (st : CanisterState) (caller : String) (now : Nat) (domainKey newOwner : String)
       (e : Error) (st' : CanisterState),
       transfer st caller now domainKey newOwner = (Except.error e, st') → st' = st) := by
  refine ⟨?_, ?_, ?_, ?_⟩
  · intro st caller name extension wallet e st' h
    unfold reserve at h
    repeat' split at h
    all_goals simp_all
  · intro st caller now name extension duration e st' h
    unfold claim claimReserveCheck claimCommit at h
    repeat' split at h
    all_goals simp_all
  · intro st caller now domainKey e st' h
    unfold revoke at h
    repeat' split at h
    all_goals simp_all
  · intro st caller now domainKey newOwner e st' h
    unfold transfer at h
    repeat' split at h
    all_goals simp_all

/-- Witness for C3: a reserve call by a non-admin caller fails and leaves
the state untouched. -/
theorem error_preserves_state_witness :
    (reserve ⟨"admin", [], [], []⟩ "bob" "abc" "icp" "w").2 = ⟨"admin", [], [], []⟩ :=
  error_preserves_state.1 ⟨"admin", [], [], []⟩ "bob" "abc" "icp" "w"
    (Error.CallerNotCanisterOwner "bob") _ rfl

/-- Claim C4: for every revoke with a valid key and an existing domain
record, the owner may revoke regardless of `validUntil`; a non-owner
succeeds exactly when `validUntil ≤ now`, otherwise the call fails with
`DomainStillValid` carrying the current owner; every successful revoke
stores the record with `validUntil = 0`, the pre-revoke owner, and
`updatedAt = now`. -/
theorem revoke_correct (st : CanisterState) (caller : String) (now : Nat) (domainKey : String)
    (hkey : isDomainKeyValid domainKey = true)
    (d : Domain) (hd : mapGet st.domainsStorage domainKey = some d) :
    (caller = d.owner → (revoke st caller now domainKey).1 = Except.ok domainKey) ∧
    (caller ≠ d.owner → d.validUntil ≤ now →
      (revoke st caller now domainKey).1 = Except.ok domainKey) ∧
    (caller ≠ d.owner → now < d.validUntil →
      (revoke st caller now domainKey).1 = Except.error (Error.DomainStillValid d.owner)) ∧
    ((revoke st caller now domainKey).1 = Except.ok domainKey →
      mapGet (revoke st caller now domainKey).2.domainsStorage domainKey =
        some { id := domainKey, owner := d.owner, validUntil := 0, updatedAt := now }) := by
  by_cases hc : d.owner = caller
  · simp [revoke, hkey, hd, hc, mapGet_insert_self]
  · by_cases ht : d.validUntil > now
    · simp [revoke, hkey, hd, hc, ht, mapGet_insert_self]
      exact fun h => hc h.symm
    · simp [revoke, hkey, hd, hc, ht, mapGet_insert_self]

/-- Witness for C4: at time 10, "alice" revokes her own record on "abc.icp"
that is valid until time 5. -/
theorem revoke_correct_witness :
    ("alice" = (⟨"abc.icp", "alice", 5, 0⟩ : Domain).owner →
      (revoke ⟨"admin", [("abc.icp", ⟨"abc.icp", "alice", 5, 0⟩)], [], []⟩
        "alice" 10 "abc.icp").1 = Except.ok "abc.icp") ∧
    ("alice" ≠ (⟨"abc.icp", "alice", 5, 0⟩ : Domain).owner →
      (⟨"abc.icp", "alice", 5, 0⟩ : Domain).validUntil ≤ 10 →
      (revoke ⟨"admin", [("abc.icp", ⟨"abc.icp", "alice", 5, 0⟩)], [], []⟩
        "alice" 10 "abc.icp").1 = Except.ok "abc.icp") ∧
    ("alice" ≠ (⟨"abc.icp", "alice", 5, 0⟩ : Domain).owner →
      10 < (⟨"abc.icp", "alice", 5, 0⟩ : Domain).validUntil →
      (revoke ⟨"admin", [("abc.icp", ⟨"abc.icp", "alice", 5, 0⟩)], [], []⟩
        "alice" 10 "abc.icp").1 =
        Except.error (Error.DomainStillValid (⟨"abc.icp", "alice", 5, 0⟩ : Domain).owner)) ∧
    ((revoke ⟨"admin", [("abc.icp", ⟨"abc.icp", "alice", 5, 0⟩)], [], []⟩
        "alice" 10 "abc.icp").1 = Except.ok "abc.icp" →
      mapGet (revoke ⟨"admin", [("abc.icp", ⟨"abc.icp", "alice", 5, 0⟩)], [], []⟩
          "alice" 10 "abc.icp").2.domainsStorage "abc.icp" =
        some { id := "abc.icp", owner := (⟨"abc.icp", "alice", 5, 0⟩ : Domain).owner,
               validUntil := 0, updatedAt := 10 }) :=
  revoke_correct ⟨"admin", [("abc.icp", ⟨"abc.icp", "alice", 5, 0⟩)], [], []⟩
    "alice" 10 "abc.icp" (by decide) ⟨"abc.icp", "alice", 5, 0⟩ rfl

/-- Claim C5: for every transfer with a valid key and an existing domain
record, a non-owner caller fails with `CallerNotDomainOwner` carrying the
caller; the owner fails with `DomainOwnershipExpired` exactly when
`validUntil < now` (strict); on success the record becomes
`{owner = newOwner, validUntil unchanged, updatedAt = now}` and the
canonical key is returned. -/
theorem transfer_correct (st : CanisterState) (caller : String) (now : Nat)
    (domainKey newOwner : String)
    (hkey : isDomainKeyValid domainKey = true)
    (d : Domain) (hd : mapGet st.domainsStorage domainKey = some d) :
    (caller ≠ d.owner →
      (transfer st caller now domainKey newOwner).1 =
        Except.error (Error.CallerNotDomainOwner caller)) ∧
    (caller = d.owner →
      ((transfer st caller now domainKey newOwner).1 =
          Except.error (Error.DomainOwnershipExpired d.owner) ↔ d.validUntil < now)) ∧
    (caller = d.owner → now ≤ d.validUntil →
      (transfer st caller now domainKey newOwner).1 = Except.ok domainKey ∧
      mapGet (transfer st caller now domainKey newOwner).2.domainsStorage domainKey =
        some { id := domainKey, owner := newOwner, validUntil := d.validUntil,
               updatedAt := now }) := by
  by_cases hc : d.owner = caller
  · by_cases ht : d.validUntil < now
    · simp [transfer, hkey, hd, hc, ht, mapGet_insert_self]
    · simp [transfer, hkey, hd, hc, ht, mapGet_insert_self]
  · simp [transfer, hkey, hd, hc, mapGet_insert_self]
    exact ⟨fun h => absurd h.symm hc, fun h => absurd h.symm hc⟩

/-- Witness for C5: at time 50, "alice" transfers "abc.icp" (valid until
exactly 50, the boundary) to "bob". -/
theorem transfer_correct_witness :
    ("alice" ≠ (⟨"abc.icp", "alice", 50, 0⟩ : Domain).owner →
      (transfer ⟨"admin", [("abc.icp", ⟨"abc.icp", "alice", 50, 0⟩)], [], []⟩
        "alice" 50 "abc.icp" "bob").1 =
        Except.error (Error.CallerNotDomainOwner "alice")) ∧
    ("alice" = (⟨"abc.icp", "alice", 50, 0⟩ : Domain).owner →
      ((transfer ⟨"admin", [("abc.icp", ⟨"abc.icp", "alice", 50, 0⟩)], [], []⟩
          "alice" 50 "abc.icp" "bob").1 =
          Except.error
            (Error.DomainOwnershipExpired (⟨"abc.icp", "alice", 50, 0⟩ : Domain).owner) ↔
        (⟨"abc.icp", "alice", 50, 0⟩ : Domain).validUntil < 50)) ∧
    ("alice" = (⟨"abc.icp", "alice", 50, 0⟩ : Domain).owner →
      50 ≤ (⟨"abc.icp", "alice", 50, 0⟩ : Domain).validUntil →
      (transfer ⟨"admin", [("abc.icp", ⟨"abc.icp", "alice", 50, 0⟩)], [], []⟩
        "alice" 50 "abc.icp" "bob").1 = Except.ok "abc.icp" ∧
      mapGet (transfer ⟨"admin", [("abc.icp", ⟨"abc.icp", "alice", 50, 0⟩)], [], []⟩
          "alice" 50 "abc.icp" "bob").2.domainsStorage "abc.icp" =
        some { id := "abc.icp", owner := "bob",
               validUntil := (⟨"abc.icp", "alice", 50, 0⟩ : Domain).validUntil,
               updatedAt := 50 }) :=
  transfer_correct ⟨"admin", [("abc.icp", ⟨"abc.icp", "alice", 50, 0⟩)], [], []⟩
    "alice" 50 "abc.icp" "bob" (by decide) ⟨"abc.icp", "alice", 50, 0⟩ rfl

/-- Claim C6: for every reserve call, a non-admin caller fails with
`CallerNotCanisterOwner` carrying the caller; the admin with valid name and
extension fails with `DomainAlreadyClaimed` carrying the existing owner
exactly when a domain record for the key is present in storage — even an
expired one — and when no record exists it succeeds, stores the reservation
for the target wallet, and returns the canonical key. -/
theorem reserve_correct (st : CanisterState) (caller name extension wallet : String) :
    (caller ≠ st.owner →
      (reserve st caller name extension wallet).1 =
        Except.error (Error.CallerNotCanisterOwner caller)) ∧
    (caller = st.owner → isDomainNameValid name = true → isDomainExtensionValid extension = true →
      (((∃ p, (reserve st caller name extension wallet).1 =
          Except.error (Error.DomainAlreadyClaimed p)) ↔
        (mapGet st.domainsStorage (getDomainKey name extension)).isSome) ∧
       (∀ d, mapGet st.domainsStorage (getDomainKey name extension) = some d →
         (reserve st caller name extension wallet).1 =
           Except.error (Error.DomainAlreadyClaimed d.owner)) ∧
       (mapGet st.domainsStorage (getDomainKey name extension) = none →
         (reserve st caller name extension wallet).1 =
             Except.ok (getDomainKey name extension) ∧
           mapGet (reserve st caller name extension wallet).2.reservedDomainsStorage
             (getDomainKey name extension) = some wallet))) := by
  by_cases hc : st.owner = caller
  · refine ⟨fun h => absurd hc.symm h, fun _ hname hext => ?_⟩
    rcases hd : mapGet st.domainsStorage (getDomainKey name extension) with _ | d
    · simp [reserve, hc, hname, hext, hd, mapGet_insert_self]
    · simp [reserve, hc, hname, hext, hd, mapGet_insert_self]
  · refine ⟨fun _ => by simp [reserve, hc], fun h => absurd h.symm hc⟩

/-- Witness for C6: the admin reserves "abc.icp" for "carol" in a state with
a domain record for "abc.icp" that expired at time 5 — the reserve is
refused because the record exists, expiry notwithstanding. -/
theorem reserve_correct_witness :
    ((∃ p, (reserve ⟨"admin", [("abc.icp", ⟨"abc.icp", "alice", 5, 0⟩)], [], []⟩
        "admin" "abc" "icp" "carol").1 =
        Except.error (Error.DomainAlreadyClaimed p)) ↔
      (mapGet [("abc.icp", (⟨"abc.icp", "alice", 5, 0⟩ : Domain))]
        (getDomainKey "abc" "icp")).isSome) ∧
    (∀ d, mapGet [("abc.icp", (⟨"abc.icp", "alice", 5, 0⟩ : Domain))]
        (getDomainKey "abc" "icp") = some d →
      (reserve ⟨"admin", [("abc.icp", ⟨"abc.icp", "alice", 5, 0⟩)], [], []⟩
        "admin" "abc" "icp" "carol").1 =
        Except.error (Error.DomainAlreadyClaimed d.owner)) ∧
    (mapGet [("abc.icp", (⟨"abc.icp", "alice", 5, 0⟩ : Domain))]
        (getDomainKey "abc" "icp") = none →
      (reserve ⟨"admin", [("abc.icp", ⟨"abc.icp", "alice", 5, 0⟩)], [], []⟩
          "admin" "abc" "icp" "carol").1 =
          Except.ok (getDomainKey "abc" "icp") ∧
        mapGet (reserve ⟨"admin", [("abc.icp", ⟨"abc.icp", "alice", 5, 0⟩)], [], []⟩
            "admin" "abc" "icp" "carol").2.reservedDomainsStorage
          (getDomainKey "abc" "icp") = some "carol") :=
  (reserve_correct ⟨"admin", [("abc.icp", ⟨"abc.icp", "alice", 5, 0⟩)], [], []⟩
    "admin" "abc" "icp" "carol").2 rfl (by decide) (by decide)

/-- Claim C7: every successful claim, revoke or transfer on a key appends
exactly one history entry to the key's history sequence, leaving all
previously appended entries unchanged in content and order (the new
sequence is the old sequence plus one final entry). -/
theorem history_appends_one_entry :
    (∀ (st : CanisterState) (caller : String) (now : Nat) (name extension : String)
       (duration : Nat) (k : String) (st' : CanisterState),
       claim st caller now name extension duration = (Except.ok k, st') →
       ∃ e, mapGet st'.domainHistoryStorage k = some (histOf st k ++ [e])) ∧
    (∀ (st : CanisterState) (caller : String) (now : Nat) (domainKey : String)
       (st' : CanisterState),
       revoke st caller now domainKey = (Except.ok domainKey, st') →
       ∃ e, mapGet st'.domainHistoryStorage domainKey =
         some (histOf st domainKey ++ [e])) ∧
    (∀ (st : CanisterState) (caller : String) (now : Nat) (domainKey newOwner : String)
       (st' : CanisterState),
       transfer st caller now domainKey newOwner = (Except.ok domainKey, st') →
       ∃ e, mapGet st'.domainHistoryStorage domainKey =
         some (histOf st domainKey ++ [e])) := by
  refine ⟨?_, ?_, ?_⟩
  · intro st caller now name extension duration k st' h
    unfold claim claimReserveCheck claimCommit at h
    repeat' split at h
    all_goals simp only [Prod.mk.injEq, Except.ok.injEq, reduceCtorEq, false_and,
      true_and] at h
    all_goals obtain ⟨hk, hst⟩ := h
    all_goals subst hk
    all_goals subst hst
    all_goals exact ⟨_, updateHistoryRecord_get _ _ _ _ _⟩
  · intro st caller now domainKey st' h
    unfold revoke at h
    repeat' split at h
    all_goals simp only [Prod.mk.injEq, Except.ok.injEq, reduceCtorEq, false_and,
      true_and] at h
    all_goals subst h
    all_goals exact ⟨_, updateHistoryRecord_get _ _ _ _ _⟩
  · intro st caller now domainKey newOwner st' h
    unfold transfer at h
    repeat' split at h
    all_goals simp only [Prod.mk.injEq, Except.ok.injEq, reduceCtorEq, false_and,
      true_and] at h
    all_goals subst h
    all_goals exact ⟨_, updateHistoryRecord_get _ _ _ _ _⟩

/-- Witness for C7: the revoke of "abc.icp" by its owner at time 10 appends
one entry to the key's (initially empty) history. -/
theorem history_appends_one_entry_witness :
    ∃ e, mapGet (revoke ⟨"admin", [("abc.icp", ⟨"abc.icp", "alice", 5, 0⟩)], [], []⟩
        "alice" 10 "abc.icp").2.domainHistoryStorage "abc.icp" =
      some (histOf ⟨"admin", [("abc.icp", ⟨"abc.icp", "alice", 5, 0⟩)], [], []⟩
        "abc.icp" ++ [e]) :=
  history_appends_one_entry.2.1
    ⟨"admin", [("abc.icp", ⟨"abc.icp", "alice", 5, 0⟩)], [], []⟩ "alice" 10 "abc.icp" _ rfl

/-- Counterexample for C8: "bob" (not the owner) revokes the expired domain
"abc.icp" owned by "alice"; the revoke succeeds but the appended history
entry records "bob", the caller, as its owner — not the pre-revoke owner
"alice" as the claim states. -/
theorem revoke_history_attribution_cex :
    mapGet (⟨"admin", [("abc.icp", ⟨"abc.icp", "alice", 5, 0⟩)], [], []⟩ :
        CanisterState).domainsStorage "abc.icp" =
      some ⟨"abc.icp", "alice", 5, 0⟩ ∧
    (revoke ⟨"admin", [("abc.icp", ⟨"abc.icp", "alice", 5, 0⟩)], [], []⟩
        "bob" 10 "abc.icp").1 = Except.ok "abc.icp" ∧
    mapGet (revoke ⟨"admin", [("abc.icp", ⟨"abc.icp", "alice", 5, 0⟩)], [], []⟩
        "bob" 10 "abc.icp").2.domainHistoryStorage "abc.icp" =
      some [{ owner := "bob", validUntil := 0, createdAt := 10 }] ∧
    ("bob" : String) ≠ "alice" :=
  ⟨rfl, rfl, rfl, by decide⟩

/-- Claim C8 (amended): the history entry appended by every successful
revoke records as its owner the identity that invoked the revoke (with
`validUntil = 0` and `createdAt = now`); this coincides with the pre-revoke
owner only when the owner revokes. -/
theorem revoke_history_records_caller (st : CanisterState) (caller : String) (now : Nat)
    (domainKey : String) (st' : CanisterState)
    (h : revoke st caller now domainKey = (Except.ok domainKey, st')) :
    mapGet st'.domainHistoryStorage domainKey =
      some (histOf st domainKey ++
        [{ owner := caller, validUntil := 0, createdAt := now }]) := by
  unfold revoke at h
  repeat' split at h
  all_goals simp only [Prod.mk.injEq, Except.ok.injEq, reduceCtorEq, false_and,
    true_and] at h
  all_goals subst h
  all_goals exact updateHistoryRecord_get _ _ _ _ _

/-- Witness for C8 (amended): the owner "alice" revokes "abc.icp" at time
10; the appended entry records "alice" with `validUntil = 0`. -/
theorem revoke_history_records_caller_witness :
    mapGet (revoke ⟨"admin", [("abc.icp", ⟨"abc.icp", "alice", 5, 0⟩)], [("abc.icp", [])], []⟩
        "alice" 10 "abc.icp").2.domainHistoryStorage "abc.icp" =
      some (histOf ⟨"admin", [("abc.icp", ⟨"abc.icp", "alice", 5, 0⟩)], [("abc.icp", [])], []⟩
          "abc.icp" ++
        [{ owner := "alice", validUntil := 0, createdAt := 10 }]) :=
  revoke_history_records_caller
    ⟨"admin", [("abc.icp", ⟨"abc.icp", "alice", 5, 0⟩)], [("abc.icp", [])], []⟩
    "alice" 10 "abc.icp" _ rfl

/-- Counterexample for C9: the name "a.b" has length 3 and so passes
name validation, and "icp" is a supported extension, yet the canonical key
"a.b.icp" fails combined-key validation: the split yields parts "a" and
"b", neither a valid name/extension pair. -/
theorem key_validation_idempotent_cex :
    isDomainNameValid "a.b" = true ∧ isDomainExtensionValid "icp" = true ∧
      isDomainKeyValid (getDomainKey "a.b" "icp") = false := by
  decide

/-- Claim C9 (amended): for every name that passes validation and contains
no separator character and every supported extension, the canonical key
`name ++ "." ++ extension` passes combined-key validation, the combined key
splits back into the original name and extension, and re-canonicalizing the
split parts yields the same key. -/
theorem key_validation_idempotent (name extension : String)
    (hname : isDomainNameValid name = true)
    (hext : isDomainExtensionValid extension = true)
    (hnd : '.' ∉ name.data) :
    isDomainKeyValid (getDomainKey name extension) = true ∧
      splitDomainKey (getDomainKey name extension) = (name, extension) ∧
      getDomainKey (splitDomainKey (getDomainKey name extension)).1
          (splitDomainKey (getDomainKey name extension)).2 =
        getDomainKey name extension := by
  have hsplit := splitKey_getDomainKey name extension hnd (extension_no_dot extension hext)
  refine ⟨?_, ?_, ?_⟩
  · rw [isDomainKeyValid, hsplit]
    simp [hname, hext]
  · rw [splitDomainKey, hsplit]
  · rw [splitDomainKey, hsplit]

/-- Witness for C9 (amended): the valid, separator-free name "abc" with
extension "icp". -/
theorem key_validation_idempotent_witness :
    isDomainKeyValid (getDomainKey "abc" "icp") = true ∧
      splitDomainKey (getDomainKey "abc" "icp") = ("abc", "icp") ∧
      getDomainKey (splitDomainKey (getDomainKey "abc" "icp")).1
          (splitDomainKey (getDomainKey "abc" "icp")).2 =
        getDomainKey "abc" "icp" :=
  key_validation_idempotent "abc" "icp" (by decide) (by decide) (by decide)

/-- Claim C10: in a state with no domain record for the canonical key but an
existing reservation for it, a reserve call by the admin with valid name and
extension succeeds and silently replaces the reservation's target with the
new wallet; reserve never fails because a reservation already exists. -/
theorem reserve_overwrites_reservation (st : CanisterState)
    (name extension wallet oldWallet : String)
    (hname : isDomainNameValid name = true)
    (hext : isDomainExtensionValid extension = true)
    (hdom : mapGet st.domainsStorage (getDomainKey name extension) = none)
    (_hres : mapGet st.reservedDomainsStorage (getDomainKey name extension) = some oldWallet) :
    (reserve st st.owner name extension wallet).1 = Except.ok (getDomainKey name extension) ∧
      mapGet (reserve st st.owner name extension wallet).2.reservedDomainsStorage
        (getDomainKey name extension) = some wallet := by
  simp [reserve, hname, hext, hdom, mapGet_insert_self]

/-- Witness for C10: the admin re-reserves "abc.icp" for "bob" while it is
currently reserved for "alice"; the reservation target silently becomes
"bob". -/
theorem reserve_overwrites_reservation_witness :
    (reserve ⟨"admin", [], [], [("abc.icp", "alice")]⟩
        (⟨"admin", [], [], [("abc.icp", "alice")]⟩ : CanisterState).owner
        "abc" "icp" "bob").1 = Except.ok (getDomainKey "abc" "icp") ∧
      mapGet (reserve ⟨"admin", [], [], [("abc.icp", "alice")]⟩
          (⟨"admin", [], [], [("abc.icp", "alice")]⟩ : CanisterState).owner
          "abc" "icp" "bob").2.reservedDomainsStorage
        (getDomainKey "abc" "icp") = some "bob" :=
  reserve_overwrites_reservation ⟨"admin", [], [], [("abc.icp", "alice")]⟩
    "abc" "icp" "bob" "alice" (by decide) (by decide) rfl rfl

end NameService
